import Mathlib

/-!
Verification development for the AutoZap workflow automation engine
(Go sources under internal/ and cmd/).  Go code is shallowly embedded:
pure fragments become Lean functions, machine integers become Int/Nat,
Go float64 arithmetic is modelled over the rationals, and effects
(logging, sleeping, database calls, metric emission) are reified as
explicit traces or parameters.
-/

namespace Autozap

/-! ## Shared string operations (Go strings package)

strings.Contains, strings.ToLower, strings.HasPrefix, strings.TrimPrefix
as used by the retry package.  Go ToLower is full Unicode; only ASCII
matters for the embedded predicates. -/

/-- Boolean prefix test on character lists. -/
def charsHavePrefix : List Char → List Char → Bool
  | [], _ => true
  | _ :: _, [] => false
  | a :: as, b :: bs => a == b && charsHavePrefix as bs

/-- Boolean infix test: needle occurs contiguously in haystack. -/
def charsContain (haystack needle : List Char) : Bool :=
  match haystack with
  | [] => needle.isEmpty
  | _ :: rest => charsHavePrefix needle haystack || charsContain rest needle

/-- strings.Contains(s, sub): sub occurs as a contiguous substring of s. -/
def strContains (s sub : String) : Bool :=
  charsContain s.data sub.data

/-- ASCII lowercasing of one character (the fragment of Unicode case
folding the embedded predicates depend on). -/
def lowerChar (c : Char) : Char :=
  if 65 ≤ c.toNat ∧ c.toNat ≤ 90 then Char.ofNat (c.toNat + 32) else c

/-- strings.ToLower(s). -/
def strToLower (s : String) : String :=
  ⟨s.data.map lowerChar⟩

/-- strings.HasPrefix(s, pre). -/
def strHasPre (s pre : String) : Bool :=
  charsHavePrefix pre.data s.data

/-- strings.TrimPrefix(s, pre) under the knowledge that the prefix is
present: drop its length. -/
def strDropPre (s : String) (n : ℕ) : String :=
  ⟨s.data.drop n⟩

/-! ## Retry package (internal/retry/retry.go)

Durations are int64 nanoseconds in Go; they are embedded as Int.
time.ParseDuration is an external stdlib function and enters as a
parameter of type String → Option Int (none models a parse error).
rand.Float64() enters as an explicit jitter sample in [0,1). -/

/-- workflow.RetryConfig: field set as constructed and consumed by the
retry package (MaxAttempts, InitialDelay, MaxDelay, Multiplier, RetryOn). -/
structure RetryConfig where
  maxAttempts : Int
  initialDelay : String
  maxDelay : String
  multiplier : ℚ
  retryOn : List String

/-- One second in nanoseconds (Go time.Second). -/
def nsPerSecond : Int := 1000000000

/-- parseDuration(s, defaultValue): empty string or a failing
time.ParseDuration both yield defaultValue (the failure is only logged,
never surfaced); otherwise the parsed duration. -/
def parseDuration (parse : String → Option Int) (s : String) (defaultValue : Int) : Int :=
  if s = "" then defaultValue
  else
    match parse s with
    | none => defaultValue
    | some d => d

/-- shouldRetry(err, retryOn) for a non-nil error with text errMsg.
Empty retryOn retries on all errors; otherwise the first matching
predicate wins: timeout, error (match-all), status:N, network, or a
case-insensitive substring of the error text. -/
def shouldRetry (errMsg : String) (retryOn : List String) : Bool :=
  if retryOn.isEmpty then true
  else
    let errMsgLower := strToLower errMsg
    retryOn.any fun condition =>
      let conditionLower := strToLower condition
      if conditionLower = "timeout" then
        strContains errMsgLower "timeout" || strContains errMsgLower "deadline exceeded"
      else if conditionLower = "error" then
        true
      else if strHasPre conditionLower "status:" then
        let statusCode := strDropPre conditionLower 7
        strContains errMsgLower ("status code " ++ statusCode) ||
          strContains errMsgLower ("status " ++ statusCode)
      else if conditionLower = "network" then
        strContains errMsgLower "network" || strContains errMsgLower "connection" ||
          strContains errMsgLower "dns"
      else
        strContains errMsgLower conditionLower

/-- Go conversion time.Duration(f) of a float64 f: truncation toward zero,
modelled on the rationals. -/
def ratTrunc (q : ℚ) : Int := q.num / (q.den : Int)

/-- calculateDelay(attempt, initialDelay, maxDelay, multiplier) with the
rand.Float64() sample passed in as j.  Exponential backoff capped at
maxDelay, jitter of plus or minus 10 percent, converted to a Duration
(truncation toward zero) and bounded below by initialDelay. -/
def calculateDelay (attempt : ℕ) (initialDelay maxDelay : Int) (multiplier : ℚ)
    (j : ℚ) : Int :=
  let delay : ℚ := (initialDelay : ℚ) * multiplier ^ attempt
  let delay : ℚ := if delay > (maxDelay : ℚ) then (maxDelay : ℚ) else delay
  let jitter : ℚ := delay * (1/10) * (j * 2 - 1)
  let finalDelay : Int := ratTrunc (delay + jitter)
  if finalDelay < initialDelay then initialDelay else finalDelay

/-- Observable result of one ExecuteWithRetry run: the returned error
(none is success), the number of invocations of the inner fn, and the
sequence of backoff sleeps (nanoseconds) in order. -/
structure RetryTrace where
  outcome : Option String
  calls : ℕ
  delays : List Int
  deriving Repr, DecidableEq

/-- The attempt loop of ExecuteWithRetry, starting at a given attempt
number.  fn k is the outcome of the k-th invocation of the inner run
(none is success); js k is the rand.Float64() sample drawn before the
sleep that follows a failing attempt k.  fuel bounds the remaining
iterations; it is instantiated with maxAttempts so that the zero case is
never reached from attempt 1. -/
def retryAux (fn : ℕ → Option String) (js : ℕ → ℚ) (retryOn : List String)
    (maxAttempts : ℕ) (initialDelay maxDelay : Int) (multiplier : ℚ) :
    ℕ → ℕ → RetryTrace
  | _, 0 => ⟨none, 0, []⟩
  | attempt, fuel + 1 =>
    match fn attempt with
    | none => ⟨none, 1, []⟩
    | some e =>
      if maxAttempts ≤ attempt then
        ⟨some e, 1, []⟩
      else if shouldRetry e retryOn = false then
        ⟨some e, 1, []⟩
      else
        let d := calculateDelay (attempt - 1) initialDelay maxDelay multiplier (js attempt)
        let rest := retryAux fn js retryOn maxAttempts initialDelay maxDelay multiplier
          (attempt + 1) fuel
        ⟨rest.outcome, rest.calls + 1, d :: rest.delays⟩

/-- ExecuteWithRetry(actionName, retryConfig, fn).  A nil config or
MaxAttempts at most 0 executes fn once and returns its outcome; otherwise
durations and the multiplier are defaulted and the attempt loop runs from
attempt 1 with at most maxAttempts iterations. -/
def ExecuteWithRetry (parse : String → Option Int) (retryConfig : Option RetryConfig)
    (fn : ℕ → Option String) (js : ℕ → ℚ) : RetryTrace :=
  match retryConfig with
  | none => ⟨fn 1, 1, []⟩
  | some cfg =>
    if cfg.maxAttempts ≤ 0 then ⟨fn 1, 1, []⟩
    else
      let maxAttempts : Int := if cfg.maxAttempts ≤ 0 then 1 else cfg.maxAttempts
      let initialDelay := parseDuration parse cfg.initialDelay (1 * nsPerSecond)
      let maxDelay := parseDuration parse cfg.maxDelay (60 * nsPerSecond)
      let multiplier : ℚ := if cfg.multiplier ≤ 0 then 2 else cfg.multiplier
      retryAux fn js cfg.retryOn maxAttempts.toNat initialDelay maxDelay multiplier
        1 maxAttempts.toNat

example : (ExecuteWithRetry (fun _ => none) none (fun _ => some "boom") (fun _ => 0)).calls = 1 := by
  decide

example :
    (ExecuteWithRetry (fun _ => none)
      (some ⟨3, "", "", 2, []⟩) (fun _ => some "boom") (fun _ => 0)).calls = 3 := by
  decide

example :
    (ExecuteWithRetry (fun _ => none)
      (some ⟨3, "", "", 2, ["timeout"]⟩) (fun _ => some "boom") (fun _ => 0)).calls = 1 := by
  decide

/-! ## Workflow data model (internal/workflow/types.go)

Go TriggerType and ActionType are string-typed enums; values outside the
named constants are representable (the validators have default branches
for them), so both carry an extra constructor holding the raw string. -/

inductive TriggerType
  | cron
  | filewatch
  | otherTrigger (s : String)
  deriving Repr, DecidableEq

/-- TriggerType.String(). -/
def TriggerType.str : TriggerType → String
  | .cron => "cron"
  | .filewatch => "filewatch"
  | .otherTrigger s => s

structure Trigger where
  typ : TriggerType
  schedule : String
  path : String
  events : List String
  deriving Repr, DecidableEq

inductive ActionType
  | bash
  | http
  | custom
  | otherAction (s : String)
  deriving Repr, DecidableEq

/-- ActionType.String(). -/
def ActionType.str : ActionType → String
  | .bash => "bash"
  | .http => "http"
  | .custom => "custom"
  | .otherAction s => s

/-- A dynamically typed Go value (interface between YAML deserialisation
and the type switches over ExpectStatus). -/
inductive GoVal
  | goInt (n : Int)
  | goFloat (q : ℚ)
  | goStr (s : String)
  | goBool (b : Bool)
  | goList (xs : List GoVal)

/-- workflow.Action: one struct with the fields of every variant, guarded
by the Type discriminator.  Headers is the Go map as an association list;
ExpectStatus is the untyped YAML value (nil when absent); Arguments is
nil or a mapping. -/
structure Action where
  typ : ActionType
  name : String
  command : String
  url : String
  method : String
  headers : List (String × String)
  body : String
  timeout : String
  expectStatus : Option GoVal
  expectBodyContains : String
  functionName : String
  arguments : Option (List (String × GoVal))

structure Workflow where
  name : String
  description : String
  trigger : Trigger
  actions : List Action

/-! ## HTTP action executor (internal/action/http.go)

The network is abstracted: time.ParseDuration enters as tparse and the
round trip (request creation, send, full body read) as a send result.
Everything after the response is obtained is embedded literally. -/

structure HttpResponse where
  statusCode : Int
  body : String

/-- The iteration over a []interface ExpectStatus list: each entry must
type-assert to int, appending in order; the first non-integer entry
aborts with the invalid-type error. -/
def collectExpectedStatuses (actionName : String) : List GoVal → Except String (List Int)
  | [] => .ok []
  | .goInt n :: rest =>
    match collectExpectedStatuses actionName rest with
    | .ok ns => .ok (n :: ns)
    | .error e => .error e
  | _ :: _ =>
    .error ("HTTP action " ++ actionName ++ ": invalid type in expect_status list. Expected integer")

/-- The two type assertions over ExpectStatus: a single int gives a
one-element list, a []interface list is collected entry-wise, and any
other dynamic type (notably float64) matches neither assertion and
leaves the expected list empty. -/
def expectedStatusList (actionName : String) (v : GoVal) : Except String (List Int) :=
  match v with
  | .goInt n => .ok [n]
  | .goList xs => collectExpectedStatuses actionName xs
  | _ => .ok []

/-- The ExpectStatus block of ExecuteHttpAction: nil skips validation;
otherwise the expected list is built and the response status must be a
member. -/
def validateExpectStatus (actionName : String) (expectStatus : Option GoVal)
    (statusCode : Int) : Option String :=
  match expectStatus with
  | none => none
  | some v =>
    match expectedStatusList actionName v with
    | .error e => some e
    | .ok expectedStatuses =>
      if expectedStatuses.any fun es => statusCode == es then none
      else some ("HTTP action " ++ actionName ++ " failed: unexpected status code")

/-- The ExpectBodyContains block of ExecuteHttpAction. -/
def validateExpectBody (actionName : String) (expectBodyContains : String)
    (responseBody : String) : Option String :=
  if expectBodyContains = "" then none
  else if strContains responseBody expectBodyContains then none
  else some ("HTTP action " ++ actionName ++ " failed: response body does not contain expected string")

/-- ExecuteHttpAction(action): precondition checks, timeout parsing, the
abstracted round trip, then status and body validation in source order.
The result none is success, some an error text. -/
def ExecuteHttpAction (tparse : String → Option Int) (act : Action)
    (send : Except String HttpResponse) : Option String :=
  if act.typ ≠ ActionType.http then
    some ("invalid action type expected http got " ++ act.typ.str)
  else if act.url = "" then
    some ("http action " ++ act.name ++ " has empty URL")
  else if act.method = "" then
    some ("http action " ++ act.name ++ " has empty method")
  else if act.timeout ≠ "" ∧ tparse act.timeout = none then
    some ("invalid timeout duration: " ++ act.timeout)
  else
    match send with
    | .error e => some ("HTTP request failed for action " ++ act.name ++ ": " ++ e)
    | .ok resp =>
      match validateExpectStatus act.name act.expectStatus resp.statusCode with
      | some e => some e
      | none => validateExpectBody act.name act.expectBodyContains resp.body

/-! ## Parser validation (internal/parser/parser.go, validateWorkflow)

Warnings are log lines in Go; they are collected here as a list, in
emission order.  The result is either the hard error or the warning
list of an accepted workflow. -/

/-- validateFileWatchEvents(events): the first name outside the set
create, write, remove, rename, chmod is the error. -/
def validateFileWatchEvents : List String → Option String
  | [] => none
  | ev :: rest =>
    if ev = "create" ∨ ev = "write" ∨ ev = "remove" ∨ ev = "rename" ∨ ev = "chmod" then
      validateFileWatchEvents rest
    else
      some ("invalid filewatch event: " ++ ev)

/-- The trigger switch of validateWorkflow. -/
def validateTrigger (wf : Workflow) : Except String (List String) :=
  match wf.trigger.typ with
  | .cron =>
    if wf.trigger.schedule = "" then .error "cron trigger requires a schedule"
    else if wf.trigger.path ≠ "" ∨ 0 < wf.trigger.events.length then
      .ok ["cron trigger has unexpected path or event these will be ignored."]
    else .ok []
  | .filewatch =>
    if wf.trigger.path = "" then .error "filewatch trigger requires a path"
    else if wf.trigger.events.length = 0 then
      .error "filewatch trigger requires at least one event"
    else
      match validateFileWatchEvents wf.trigger.events with
      | some e => .error ("filewatch trigger validation failed: " ++ e)
      | none =>
        if wf.trigger.schedule ≠ "" then
          .ok ["Filewatch trigger has unexpected schedule field; it will be ignored."]
        else .ok []
  | .otherTrigger s => .error ("unsupported trigger type: " ++ s)

/-- The action loop of validateWorkflow, carrying the running index.
Bash and custom actions with foreign fields only warn; an HTTP action
with Command, FunctionName or Arguments set is a hard error. -/
def validateActions : ℕ → List Action → Except String (List String)
  | _, [] => .ok []
  | i, a :: rest =>
    if a.name = "" then .error ("action at index " ++ toString i ++ " must have a name")
    else
      match a.typ with
      | .bash =>
        if a.command = "" then
          .error ("bash action " ++ a.name ++ " must have a command")
        else
          let ws := if a.url ≠ "" ∨ a.method ≠ "" ∨ 0 < a.headers.length ∨ a.body ≠ "" then
            ["Bash action " ++ a.name ++ " has unexpected HTTP fields; they will be ignored."]
          else []
          match validateActions (i + 1) rest with
          | .error e => .error e
          | .ok more => .ok (ws ++ more)
      | .http =>
        if a.url = "" then .error ("HTTP action " ++ a.name ++ " must have a url")
        else if a.method = "" then .error ("HTTP action " ++ a.name ++ " must have a method")
        else if a.command ≠ "" ∨ a.functionName ≠ "" ∨ a.arguments.isSome then
          .error ("HTTP action " ++ a.name ++ " has unexpected Bash or Custom fields; they will be ignored")
        else validateActions (i + 1) rest
      | .custom =>
        if a.functionName = "" then
          .error ("custom action " ++ a.name ++ " must have a functionName")
        else
          let ws := if a.command ≠ "" ∨ a.url ≠ "" ∨ a.method ≠ "" ∨ 0 < a.headers.length ∨ a.body ≠ "" then
            ["Custom action " ++ a.name ++ " has unexpected Bash or HTTP fields; they will be ignored."]
          else []
          match validateActions (i + 1) rest with
          | .error e => .error e
          | .ok more => .ok (ws ++ more)
      | .otherAction s =>
        .error ("action " ++ a.name ++ " has unsupported type: " ++ s)

/-- validateWorkflow(wf): name, action presence, trigger switch, then the
action loop; warnings accumulate in emission order. -/
def validateWorkflow (wf : Workflow) : Except String (List String) :=
  if wf.name = "" then .error "workflow name cannot be empty"
  else if wf.actions.length = 0 then .error "workflow must define at least one action"
  else
    match validateTrigger wf with
    | .error e => .error e
    | .ok tws =>
      match validateActions 0 wf.actions with
      | .error e => .error e
      | .ok aws => .ok (tws ++ aws)

/-! ## History store (internal/database/database.go)

The workflow_executions table is a list of rows plus the next
autoincrement id; the package-level db handle is an Option (none models
the uninitialised handle that every operation rejects).  Timestamps are
nanosecond instants passed in by the caller (time.Now()). -/

structure WorkflowExecutionRow where
  id : Int
  workflowName : String
  startedAt : Int
  completedAt : Option Int
  status : String
  errorText : Option String
  durationMs : Option Int
  triggerType : String
  deriving Repr, DecidableEq

structure DBConn where
  rows : List WorkflowExecutionRow
  nextId : Int
  deriving Repr, DecidableEq

/-- The freshly created workflow_executions table (sqlite autoincrement
starts at 1). -/
def emptyDB : DBConn := ⟨[], 1⟩

/-- StartWorkflowExecution(workflowName, triggerType): INSERT of a
running row with started_at now; returns the new id. -/
def StartWorkflowExecution (db : Option DBConn) (now : Int)
    (workflowName triggerType : String) : Except String (Int × DBConn) :=
  match db with
  | none => .error "database not initialized"
  | some conn =>
    .ok (conn.nextId,
      ⟨conn.rows ++ [⟨conn.nextId, workflowName, now, none, "running", none, none, triggerType⟩],
       conn.nextId + 1⟩)

/-- CompleteWorkflowExecution(id, status, errorMsg, duration): an
unconditional UPDATE of completed_at, status, error and duration_ms on
the rows whose id matches; zero matched rows is not an error. -/
def CompleteWorkflowExecution (db : Option DBConn) (now : Int) (id : Int)
    (status : String) (errorMsg : Option String) (duration : Int) :
    Except String DBConn :=
  match db with
  | none => .error "database not initialized"
  | some conn =>
    let durationMs := duration / 1000000
    .ok ⟨conn.rows.map fun r =>
      if r.id = id then
        ⟨r.id, r.workflowName, r.startedAt, some now, status, errorMsg, some durationMs, r.triggerType⟩
      else r,
      conn.nextId⟩

/-! ## Trigger firing pipelines (internal/trigger/cron.go and filewatch.go)

One firing of a trigger is embedded as the list of its observable
effects, in program order.  Action executor outcomes enter as a
parameter exec (index and action to optional error text). -/

/-- Decidable equality for insert results (used to compare traces). -/
def exceptEqDec : (a b : Except String Int) → Decidable (a = b)
  | .ok a, .ok b =>
    if h : a = b then .isTrue (by rw [h]) else .isFalse (by simp [h])
  | .ok _, .error _ => .isFalse (by simp)
  | .error _, .ok _ => .isFalse (by simp)
  | .error a, .error b =>
    if h : a = b then .isTrue (by rw [h]) else .isFalse (by simp [h])

instance : DecidableEq (Except String Int) := exceptEqDec

inductive PEvent
  | fireMetric (wfName triggerType : String)
  | histStart (wfName triggerType : String) (result : Except String Int)
  | dispatch (idx : ℕ) (typ : ActionType)
  | skipCustom (idx : ℕ)
  | skipHttpTodo (idx : ℕ)
  | unknownAction (idx : ℕ)
  | wfMetric (wfName status : String)
  | histComplete (id : Int) (status : String) (durationNs : Int) (errorText : Option String)
  | registryUpdate (wfName : String) (success : Bool) (errMsg : String)
  deriving Repr, DecidableEq

/-- The action loop of the cron AddFunc closure: every action is visited
in order; bash and http actions are dispatched to their executor, a
failure overwrites workflowStatus and workflowError and the loop
continues; custom actions are logged and skipped; an unknown type marks
the workflow failed with the unsupported-type message. -/
def runCronActions (exec : ℕ → Action → Option String) :
    List Action → ℕ → String → Option String → String × Option String × List PEvent
  | [], _, st, er => (st, er, [])
  | a :: rest, i, st, er =>
    match a.typ with
    | .bash =>
      let st2 := match exec i a with | some _ => "failed" | none => st
      let er2 := match exec i a with | some e => some e | none => er
      let r := runCronActions exec rest (i + 1) st2 er2
      (r.1, r.2.1, PEvent.dispatch i .bash :: r.2.2)
    | .http =>
      let st2 := match exec i a with | some _ => "failed" | none => st
      let er2 := match exec i a with | some e => some e | none => er
      let r := runCronActions exec rest (i + 1) st2 er2
      (r.1, r.2.1, PEvent.dispatch i .http :: r.2.2)
    | .custom =>
      let r := runCronActions exec rest (i + 1) st er
      (r.1, r.2.1, PEvent.skipCustom i :: r.2.2)
    | .otherAction s =>
      let r := runCronActions exec rest (i + 1) "failed" (some ("unsupported action type: " ++ s))
      (r.1, r.2.1, PEvent.unknownAction i :: r.2.2)

/-- One firing of the cron trigger closure registered by
StartCronTrigger: trigger-fire metric, history open (its result is the
startRes parameter, id 0 standing in after a failed insert), the action
loop, the workflow metric, the history completion guarded by id > 0, and
the registry update. -/
def cronFire (wf : Workflow) (startRes : Except String Int) (durationNs : Int)
    (exec : ℕ → Action → Option String) : List PEvent :=
  let workflowExecID : Int := match startRes with | .ok id => id | .error _ => 0
  let r := runCronActions exec wf.actions 0 "success" none
  [PEvent.fireMetric wf.name "cron", PEvent.histStart wf.name "cron" startRes]
    ++ r.2.2
    ++ [PEvent.wfMetric wf.name r.1]
    ++ (if 0 < workflowExecID then [PEvent.histComplete workflowExecID r.1 durationNs r.2.1] else [])
    ++ [PEvent.registryUpdate wf.name (r.1 == "success") (r.2.1.getD "")]

/-- The action loop of the filewatch event handler: bash actions are
dispatched (failures only logged), http and custom actions are TODO
stubs, unknown types only warn; there is no status aggregation, no
metric and no history interaction anywhere in this trigger. -/
def runFilewatchActions (exec : ℕ → Action → Option String) :
    List Action → ℕ → List PEvent
  | [], _ => []
  | a :: rest, i =>
    match a.typ with
    | .bash => PEvent.dispatch i .bash :: runFilewatchActions exec rest (i + 1)
    | .http => PEvent.skipHttpTodo i :: runFilewatchActions exec rest (i + 1)
    | .custom => PEvent.skipCustom i :: runFilewatchActions exec rest (i + 1)
    | .otherAction _ => PEvent.unknownAction i :: runFilewatchActions exec rest (i + 1)

/-- One firing of the filewatch trigger (the shouldTrigger branch of the
event loop). -/
def filewatchFire (wf : Workflow) (exec : ℕ → Action → Option String) : List PEvent :=
  runFilewatchActions exec wf.actions 0

/-- fsnotify.Op bitmask. -/
structure FsOp where
  create : Bool
  write : Bool
  remove : Bool
  rename : Bool
  chmod : Bool
  deriving Repr, DecidableEq

/-- The per-event-name switch of the filewatch loop (an unsupported name
in the configured list only logs and never triggers). -/
def opMatches (ev : String) (op : FsOp) : Bool :=
  if ev = "create" then op.create
  else if ev = "write" then op.write
  else if ev = "remove" then op.remove
  else if ev = "rename" then op.rename
  else if ev = "chmod" then op.chmod
  else false

/-- One arrival on the select of the filewatch goroutine. -/
inductive WatchInput
  | fsEvent (name : String) (op : FsOp)
  | fsError (msg : String)
  | eventsChannelClosed
  | errorsChannelClosed

/-- One iteration of the event loop spawned by StartFileWatchTrigger.
The Bool result is whether the goroutine keeps running.  StartFileWatchTrigger
receives no context and the select has cases only for the watcher event
and error channels, so the cancellation state of the per-workflow scope
(passed here as the cancelled flag purely so the dependence can be
stated) is consulted nowhere in the body. -/
def filewatchLoopStep (wf : Workflow) (exec : ℕ → Action → Option String)
    (cancelled : Bool) (input : WatchInput) : Bool × List PEvent :=
  match input with
  | .eventsChannelClosed => (false, [])
  | .errorsChannelClosed => (false, [])
  | .fsError _ => (true, [])
  | .fsEvent _ op =>
    if wf.trigger.events.any fun ev => opMatches ev op then
      (true, filewatchFire wf exec)
    else (true, [])

/-- Number of successful history-record opens in a firing trace. -/
def countOpens (evs : List PEvent) : ℕ :=
  evs.countP fun e => match e with
    | .histStart _ _ (.ok _) => true
    | _ => false

/-- Number of history-record completions in a firing trace. -/
def countCompletes (evs : List PEvent) : ℕ :=
  evs.countP fun e => match e with
    | .histComplete .. => true
    | _ => false

/-- Number of trigger-fire metric emissions in a firing trace. -/
def countFireMetrics (evs : List PEvent) : ℕ :=
  evs.countP fun e => match e with
    | .fireMetric .. => true
    | _ => false

/-! ## Concrete fixtures used by claim theorems and witnesses -/

/-- A minimal bash action. -/
def bashAct (nm : String) : Action :=
  ⟨.bash, nm, "echo hi", "", "", [], "", "", none, "", "", none⟩

/-- A filewatch workflow with one bash action. -/
def wfFW : Workflow :=
  ⟨"file-monitor", "", ⟨.filewatch, "", "/tmp/wd", ["create"]⟩, [bashAct "touch-handler"]⟩

/-- A cron workflow with two bash actions. -/
def cronWf2 : Workflow :=
  ⟨"cron-two", "", ⟨.cron, "* * * * *", "", []⟩, [bashAct "a1", bashAct "a2"]⟩

/-- Executor outcomes: first action fails with e1, every later one with e2. -/
def exec2 : ℕ → Action → Option String :=
  fun i _ => if i = 0 then some "e1" else some "e2"

/-- Executor outcomes: every action succeeds. -/
def execNone : ℕ → Action → Option String := fun _ _ => none

/-- The fsnotify bitmask of a bare create event. -/
def opCreate : FsOp := ⟨true, false, false, false, false⟩

/-- C1 claim, stated as the source has it.  The filewatch event loop step
is the same function of the incoming channel item whatever the state of
the per-workflow cancellation scope, and concretely a firing still
happens and the goroutine keeps running when the scope is already
cancelled: the per-workflow task does not stop its scheduling or its
goroutine on cancellation, contradicting the claim (and BUGFIXES.md,
which documents the intended context threading). -/
theorem C1_filewatch_ignores_cancellation :
    (∀ (wf : Workflow) (exec : ℕ → Action → Option String) (input : WatchInput) (c1 c2 : Bool),
      filewatchLoopStep wf exec c1 input = filewatchLoopStep wf exec c2 input)
    ∧ filewatchLoopStep wfFW execNone true (.fsEvent "/tmp/wd/a" opCreate)
        = (true, [PEvent.dispatch 0 .bash]) := by
  constructor
  · intro wf exec input c1 c2
    rfl
  · decide

/-- C6 claim at the failing input.  A single expect_status value that
deserialises as a YAML float matches neither type assertion of the Go
switch, the expected list stays empty and the attempt fails although the
response status is exactly the coerced value; with an int the same
validation succeeds, and a non-integer entry inside a list is the
invalid-type hard error. -/
theorem C6_float_expect_status :
    ExecuteHttpAction (fun _ => none)
        ⟨.http, "health", "", "https://svc/health", "GET", [], "", "",
          some (.goFloat 200), "", "", none⟩
        (.ok ⟨200, "healthy"⟩) ≠ none
    ∧ validateExpectStatus "health" (some (.goFloat 200)) 200
        = some "HTTP action health failed: unexpected status code"
    ∧ validateExpectStatus "health" (some (.goInt 200)) 200 = none
    ∧ validateExpectStatus "health" (some (.goList [.goInt 200, .goStr "ok"])) 200
        = some "HTTP action health: invalid type in expect_status list. Expected integer" := by
  refine ⟨?_, by decide, by decide, by decide⟩
  decide

/-- Mapping a function that fixes every member of a list is the
identity. -/
theorem mapFixesAll {α : Type} (f : α → α) :
    ∀ (l : List α), (∀ x ∈ l, f x = x) → l.map f = l
  | [], _ => rfl
  | x :: xs, h => by
    simp only [List.map_cons, List.cons.injEq]
    exact ⟨h x (List.mem_cons_self x xs), mapFixesAll f xs fun y hy => h y (List.mem_cons_of_mem x hy)⟩

/-- C8 claim: CompleteWorkflowExecution never reports a missing or
already-terminal record.  On an initialised store it always returns ok;
when no row carries the id the update is a silent no-op; and a second
completion of the same id overwrites terminal status, completed_at and
duration_ms of the matching rows with the newer values. -/
theorem C8_complete_unconditional
    (conn : DBConn) (now now2 id : Int) (st st2 : String)
    (em em2 : Option String) (dur dur2 : Int) :
    (∃ conn2, CompleteWorkflowExecution (some conn) now id st em dur = .ok conn2)
    ∧ ((∀ r ∈ conn.rows, r.id ≠ id) →
        CompleteWorkflowExecution (some conn) now id st em dur = .ok conn)
    ∧ (∀ conn2 conn3,
        CompleteWorkflowExecution (some conn) now id st em dur = .ok conn2 →
        CompleteWorkflowExecution (some conn2) now2 id st2 em2 dur2 = .ok conn3 →
        ∀ r ∈ conn3.rows, r.id = id →
          r.status = st2 ∧ r.completedAt = some now2 ∧ r.durationMs = some (dur2 / 1000000)) := by
  refine ⟨⟨_, rfl⟩, ?_, ?_⟩
  · intro hid
    obtain ⟨rows, nid⟩ := conn
    simp only [CompleteWorkflowExecution, Except.ok.injEq, DBConn.mk.injEq, and_true]
    exact mapFixesAll _ rows fun r hr => if_neg (hid r hr)
  · intro conn2 conn3 h2 h3 r hr hrid
    simp only [CompleteWorkflowExecution, Except.ok.injEq] at h2 h3
    subst h2 h3
    simp only [List.mem_map] at hr
    obtain ⟨r2, hr2, hr2eq⟩ := hr
    by_cases hc : r2.id = id
    · rw [if_pos hc] at hr2eq
      subst hr2eq
      exact ⟨rfl, rfl, rfl⟩
    · rw [if_neg hc] at hr2eq
      subst hr2eq
      exact absurd hrid hc

/-- C8 witness: completing an id absent from the store succeeds and
changes nothing, and a double completion of a concrete running row ends
with the second status, completion instant and duration. -/
theorem C8_complete_unconditional_witness :
    (CompleteWorkflowExecution (some emptyDB) 10 42 "success" none 5000000 = .ok emptyDB)
    ∧ (∀ r ∈ (⟨[⟨1, "wf", 0, some 20, "failed", some "boom", some 7, "cron"⟩], 2⟩ : DBConn).rows,
        r.id = 1 → r.status = "failed" ∧ r.completedAt = some 20 ∧ r.durationMs = some 7) := by
  constructor
  · exact (C8_complete_unconditional emptyDB 10 10 42 "success" "x" none none 5000000 0).2.1
      (by intro r hr; simp [emptyDB] at hr)
  · have h := (C8_complete_unconditional
      ⟨[⟨1, "wf", 0, none, "running", none, none, "cron"⟩], 2⟩
      10 20 1 "success" "failed" none (some "boom") 5000000 7000000).2.2
      ⟨[⟨1, "wf", 0, some 10, "success", none, some 5, "cron"⟩], 2⟩
      ⟨[⟨1, "wf", 0, some 20, "failed", some "boom", some 7, "cron"⟩], 2⟩
      rfl rfl
    intro r hr hrid
    exact h r hr hrid

/-- C9 claim: with expect_status absent and expect_body_contains empty,
a well-formed HTTP action whose round trip delivered a readable response
succeeds whatever the status code, 4xx and 5xx included. -/
theorem C9_no_validation_success
    (tparse : String → Option Int) (act : Action) (resp : HttpResponse)
    (htyp : act.typ = ActionType.http) (hurl : act.url ≠ "") (hmethod : act.method ≠ "")
    (htimeout : act.timeout = "" ∨ (tparse act.timeout).isSome = true)
    (hes : act.expectStatus = none) (hebc : act.expectBodyContains = "") :
    ExecuteHttpAction tparse act (.ok resp) = none := by
  have hto : ¬ (act.timeout ≠ "" ∧ tparse act.timeout = none) := by
    rcases htimeout with h | h
    · simp [h]
    · intro hcon
      rw [hcon.2] at h
      simp at h
  simp [ExecuteHttpAction, htyp, hurl, hmethod, hto, validateExpectStatus, hes,
    validateExpectBody, hebc]

/-- C9 witness: a GET whose response is a bare 500 with no configured
expectations is reported successful. -/
theorem C9_no_validation_success_witness :
    ExecuteHttpAction (fun _ => none)
      ⟨.http, "ping", "", "https://svc/x", "GET", [], "", "", none, "", "", none⟩
      (.ok ⟨500, "internal server error"⟩) = none :=
  C9_no_validation_success (fun _ => none)
    ⟨.http, "ping", "", "https://svc/x", "GET", [], "", "", none, "", "", none⟩
    ⟨500, "internal server error"⟩ rfl (by decide) (by decide) (Or.inl rfl) rfl rfl

/-! ## Lemmas about the retry attempt loop -/

section RetryLoopLemmas

variable (fn : ℕ → Option String) (js : ℕ → ℚ) (retryOn : List String)
variable (maxA : ℕ) (initD maxD : Int) (mult : ℚ)

/-- Unfolding of ExecuteWithRetry for a positive MaxAttempts. -/
theorem ExecuteWithRetry_pos (parse : String → Option Int) (cfg : RetryConfig)
    (fnn : ℕ → Option String) (jss : ℕ → ℚ) (h : 1 ≤ cfg.maxAttempts) :
    ExecuteWithRetry parse (some cfg) fnn jss =
      retryAux fnn jss cfg.retryOn cfg.maxAttempts.toNat
        (parseDuration parse cfg.initialDelay (1 * nsPerSecond))
        (parseDuration parse cfg.maxDelay (60 * nsPerSecond))
        (if cfg.multiplier ≤ 0 then 2 else cfg.multiplier) 1 cfg.maxAttempts.toNat := by
  have h0 : ¬ cfg.maxAttempts ≤ 0 := by omega
  simp only [ExecuteWithRetry, if_neg h0]

/-- The loop makes at most fuel invocations. -/
theorem retryAux_calls_le :
    ∀ (fuel attempt : ℕ),
      (retryAux fn js retryOn maxA initD maxD mult attempt fuel).calls ≤ fuel := by
  intro fuel
  induction fuel with
  | zero => intro attempt; simp [retryAux]
  | succ f ih =>
    intro attempt
    cases hfn : fn attempt with
    | none => simp [retryAux, hfn]
    | some e =>
      by_cases h1 : maxA ≤ attempt
      · simp [retryAux, hfn, h1]
      · by_cases h2 : shouldRetry e retryOn = false
        · simp [retryAux, hfn, h1, h2]
        · simp only [retryAux, hfn, if_neg h1, if_neg h2]
          exact Nat.add_le_add_right (ih (attempt + 1)) 1

/-- The loop's outcome is always an outcome of some inner invocation at
or after the starting attempt (never a synthesised error). -/
theorem retryAux_outcome :
    ∀ (fuel attempt : ℕ),
      (retryAux fn js retryOn maxA initD maxD mult attempt fuel).outcome = none ∨
      ∃ i, attempt ≤ i ∧
        (retryAux fn js retryOn maxA initD maxD mult attempt fuel).outcome = fn i := by
  intro fuel
  induction fuel with
  | zero => intro attempt; left; simp [retryAux]
  | succ f ih =>
    intro attempt
    cases hfn : fn attempt with
    | none => left; simp [retryAux, hfn]
    | some e =>
      by_cases h1 : maxA ≤ attempt
      · right; exact ⟨attempt, le_refl _, by simp [retryAux, hfn, h1]⟩
      · by_cases h2 : shouldRetry e retryOn = false
        · right; exact ⟨attempt, le_refl _, by simp [retryAux, hfn, h1, h2]⟩
        · have hout : (retryAux fn js retryOn maxA initD maxD mult attempt (f + 1)).outcome
              = (retryAux fn js retryOn maxA initD maxD mult (attempt + 1) f).outcome := by
            simp only [retryAux, hfn, if_neg h1, if_neg h2]
          rcases ih (attempt + 1) with h | ⟨i, hi, heq⟩
          · left; rw [hout]; exact h
          · right; exact ⟨i, by omega, by rw [hout]; exact heq⟩

/-- A single failing, retryable, non-final step of the loop. -/
theorem retryAux_step (attempt f : ℕ) (e : String)
    (hfe : fn attempt = some e) (h1 : ¬ maxA ≤ attempt)
    (h2 : shouldRetry e retryOn = true) :
    retryAux fn js retryOn maxA initD maxD mult attempt (f + 1) =
      ⟨(retryAux fn js retryOn maxA initD maxD mult (attempt + 1) f).outcome,
       (retryAux fn js retryOn maxA initD maxD mult (attempt + 1) f).calls + 1,
       calculateDelay (attempt - 1) initD maxD mult (js attempt) ::
         (retryAux fn js retryOn maxA initD maxD mult (attempt + 1) f).delays⟩ := by
  have h2f : ¬ (shouldRetry e retryOn = false) := by simp [h2]
  simp only [retryAux, hfe, if_neg h1, if_neg h2f]

/-- Skipping a block of failing retryable non-final attempts shifts the
loop and adds the block length to the invocation count. -/
theorem retryAux_skip :
    ∀ (m attempt fuel : ℕ),
      (∀ i, attempt ≤ i → i < attempt + m →
        ∃ e, fn i = some e ∧ shouldRetry e retryOn = true) →
      attempt + m ≤ maxA → m ≤ fuel →
      (retryAux fn js retryOn maxA initD maxD mult attempt fuel).outcome =
        (retryAux fn js retryOn maxA initD maxD mult (attempt + m) (fuel - m)).outcome ∧
      (retryAux fn js retryOn maxA initD maxD mult attempt fuel).calls =
        (retryAux fn js retryOn maxA initD maxD mult (attempt + m) (fuel - m)).calls + m := by
  intro m
  induction m with
  | zero => intro attempt fuel _ _ _; simp
  | succ n ih =>
    intro attempt fuel hall hmax hfuel
    obtain ⟨f, rfl⟩ : ∃ f, fuel = f + 1 := ⟨fuel - 1, by omega⟩
    obtain ⟨e, hfe, hre⟩ := hall attempt (le_refl _) (by omega)
    have h1 : ¬ maxA ≤ attempt := by omega
    rw [retryAux_step fn js retryOn maxA initD maxD mult attempt f e hfe h1 hre]
    have hsh : attempt + 1 + n = attempt + (n + 1) := by omega
    have hsf : f - n = f + 1 - (n + 1) := by omega
    obtain ⟨ho, hc⟩ := ih (attempt + 1) f
      (fun i hi hilt => hall i (by omega) (by omega)) (by omega) (by omega)
    rw [hsh, hsf] at ho hc
    refine ⟨ho, ?_⟩
    show (retryAux fn js retryOn maxA initD maxD mult (attempt + 1) f).calls + 1
        = (retryAux fn js retryOn maxA initD maxD mult (attempt + (n + 1)) (f + 1 - (n + 1))).calls + (n + 1)
    omega

/-- The backoff slept after the (attempt + k)-th invocation, when the
attempts from the starting one through it all fail retryably before the
last slot. -/
theorem retryAux_delays_get :
    ∀ (k attempt fuel : ℕ),
      (∀ i, attempt ≤ i → i < attempt + k + 1 →
        ∃ e, fn i = some e ∧ shouldRetry e retryOn = true) →
      attempt + k + 1 ≤ maxA → k + 1 ≤ fuel →
      (retryAux fn js retryOn maxA initD maxD mult attempt fuel).delays.get? k =
        some (calculateDelay (attempt + k - 1) initD maxD mult (js (attempt + k))) := by
  intro k
  induction k with
  | zero =>
    intro attempt fuel hall hmax hfuel
    obtain ⟨f, rfl⟩ : ∃ f, fuel = f + 1 := ⟨fuel - 1, by omega⟩
    obtain ⟨e, hfe, hre⟩ := hall attempt (le_refl _) (by omega)
    rw [retryAux_step fn js retryOn maxA initD maxD mult attempt f e hfe (by omega) hre]
    simp
  | succ n ih =>
    intro attempt fuel hall hmax hfuel
    obtain ⟨f, rfl⟩ : ∃ f, fuel = f + 1 := ⟨fuel - 1, by omega⟩
    obtain ⟨e, hfe, hre⟩ := hall attempt (le_refl _) (by omega)
    rw [retryAux_step fn js retryOn maxA initD maxD mult attempt f e hfe (by omega) hre]
    have := ih (attempt + 1) f
      (fun i hi hilt => hall i (by omega) (by omega)) (by omega) (by omega)
    have hsh : attempt + 1 + n = attempt + (n + 1) := by omega
    rw [hsh] at this
    simpa using this

end RetryLoopLemmas

/-- Failing duration parses fall back to the default. -/
theorem parseDuration_of_parse_none (parse : String → Option Int) (s : String)
    (d : Int) (h : parse s = none) : parseDuration parse s d = d := by
  by_cases hs : s = ""
  · simp [parseDuration, hs]
  · simp [parseDuration, hs, h]

/-- C4 claim: with no config or max_attempts at most 1 the inner run is
invoked exactly once and its outcome returned; otherwise the inner run
is invoked at most max_attempts times, a failing non-final attempt that
no retry_on predicate matches is returned immediately after exactly that
many invocations, and exhausting all attempts returns the last
attempt's outcome. -/
theorem C4_retry_attempts :
    (∀ (parse : String → Option Int) (fn : ℕ → Option String) (js : ℕ → ℚ),
      (ExecuteWithRetry parse none fn js).outcome = fn 1 ∧
      (ExecuteWithRetry parse none fn js).calls = 1)
    ∧ (∀ (parse : String → Option Int) (cfg : RetryConfig) (fn : ℕ → Option String) (js : ℕ → ℚ),
      cfg.maxAttempts ≤ 1 →
      (ExecuteWithRetry parse (some cfg) fn js).outcome = fn 1 ∧
      (ExecuteWithRetry parse (some cfg) fn js).calls = 1)
    ∧ (∀ (parse : String → Option Int) (cfg : RetryConfig) (fn : ℕ → Option String) (js : ℕ → ℚ),
      (ExecuteWithRetry parse (some cfg) fn js).calls ≤ max 1 cfg.maxAttempts.toNat)
    ∧ (∀ (parse : String → Option Int) (cfg : RetryConfig) (fn : ℕ → Option String) (js : ℕ → ℚ)
        (k : ℕ) (e : String),
      1 ≤ k → k < cfg.maxAttempts.toNat →
      (∀ i, 1 ≤ i → i < k → ∃ ei, fn i = some ei ∧ shouldRetry ei cfg.retryOn = true) →
      fn k = some e → shouldRetry e cfg.retryOn = false →
      (ExecuteWithRetry parse (some cfg) fn js).outcome = some e ∧
      (ExecuteWithRetry parse (some cfg) fn js).calls = k)
    ∧ (∀ (parse : String → Option Int) (cfg : RetryConfig) (fn : ℕ → Option String) (js : ℕ → ℚ)
        (e : String),
      1 ≤ cfg.maxAttempts →
      (∀ i, 1 ≤ i → i < cfg.maxAttempts.toNat →
        ∃ ei, fn i = some ei ∧ shouldRetry ei cfg.retryOn = true) →
      fn cfg.maxAttempts.toNat = some e →
      (ExecuteWithRetry parse (some cfg) fn js).outcome = some e ∧
      (ExecuteWithRetry parse (some cfg) fn js).calls = cfg.maxAttempts.toNat) := by
  refine ⟨fun parse fn js => ⟨rfl, rfl⟩, ?_, ?_, ?_, ?_⟩
  · intro parse cfg fn js hle
    by_cases h0 : cfg.maxAttempts ≤ 0
    · constructor <;> simp [ExecuteWithRetry, if_pos h0]
    · have hm1 : cfg.maxAttempts.toNat = 1 := by omega
      rw [ExecuteWithRetry_pos parse cfg fn js (by omega), hm1]
      cases hfn : fn 1 with
      | none => constructor <;> simp [retryAux, hfn]
      | some e => constructor <;> simp [retryAux, hfn]
  · intro parse cfg fn js
    by_cases h0 : cfg.maxAttempts ≤ 0
    · simp only [ExecuteWithRetry, if_pos h0]
      exact le_max_left 1 _
    · rw [ExecuteWithRetry_pos parse cfg fn js (by omega)]
      exact le_trans (retryAux_calls_le fn js cfg.retryOn cfg.maxAttempts.toNat _ _ _
        cfg.maxAttempts.toNat 1) (le_max_right 1 _)
  · intro parse cfg fn js k e hk1 hklt hall hfk hnr
    have hma : 1 ≤ cfg.maxAttempts := by omega
    rw [ExecuteWithRetry_pos parse cfg fn js hma]
    have hk : 1 + (k - 1) = k := by omega
    obtain ⟨ho, hc⟩ := retryAux_skip fn js cfg.retryOn cfg.maxAttempts.toNat
      (parseDuration parse cfg.initialDelay (1 * nsPerSecond))
      (parseDuration parse cfg.maxDelay (60 * nsPerSecond))
      (if cfg.multiplier ≤ 0 then 2 else cfg.multiplier)
      (k - 1) 1 cfg.maxAttempts.toNat
      (fun i h1 h2 => hall i h1 (by omega)) (by omega) (by omega)
    rw [hk] at ho hc
    obtain ⟨f, hf⟩ : ∃ f, cfg.maxAttempts.toNat - (k - 1) = f + 1 :=
      ⟨cfg.maxAttempts.toNat - (k - 1) - 1, by omega⟩
    rw [hf] at ho hc
    have hstep : retryAux fn js cfg.retryOn cfg.maxAttempts.toNat
        (parseDuration parse cfg.initialDelay (1 * nsPerSecond))
        (parseDuration parse cfg.maxDelay (60 * nsPerSecond))
        (if cfg.multiplier ≤ 0 then 2 else cfg.multiplier) k (f + 1)
        = ⟨some e, 1, []⟩ := by
      simp only [retryAux, hfk]
      rw [if_neg (by omega), if_pos hnr]
    rw [hstep] at ho hc
    refine ⟨ho, ?_⟩
    rw [hc]
    show 1 + (k - 1) = k
    omega
  · intro parse cfg fn js e hma hall hflast
    rw [ExecuteWithRetry_pos parse cfg fn js hma]
    have hN : 1 ≤ cfg.maxAttempts.toNat := by omega
    have hk : 1 + (cfg.maxAttempts.toNat - 1) = cfg.maxAttempts.toNat := by omega
    obtain ⟨ho, hc⟩ := retryAux_skip fn js cfg.retryOn cfg.maxAttempts.toNat
      (parseDuration parse cfg.initialDelay (1 * nsPerSecond))
      (parseDuration parse cfg.maxDelay (60 * nsPerSecond))
      (if cfg.multiplier ≤ 0 then 2 else cfg.multiplier)
      (cfg.maxAttempts.toNat - 1) 1 cfg.maxAttempts.toNat
      (fun i h1 h2 => hall i h1 (by omega)) (by omega) (by omega)
    rw [hk] at ho hc
    obtain ⟨f, hf⟩ : ∃ f, cfg.maxAttempts.toNat - (cfg.maxAttempts.toNat - 1) = f + 1 :=
      ⟨cfg.maxAttempts.toNat - (cfg.maxAttempts.toNat - 1) - 1, by omega⟩
    rw [hf] at ho hc
    have hstep : retryAux fn js cfg.retryOn cfg.maxAttempts.toNat
        (parseDuration parse cfg.initialDelay (1 * nsPerSecond))
        (parseDuration parse cfg.maxDelay (60 * nsPerSecond))
        (if cfg.multiplier ≤ 0 then 2 else cfg.multiplier) cfg.maxAttempts.toNat (f + 1)
        = ⟨some e, 1, []⟩ := by
      simp only [retryAux, hflast]
      rw [if_pos (le_refl _)]
    rw [hstep] at ho hc
    refine ⟨ho, ?_⟩
    rw [hc]
    show 1 + (cfg.maxAttempts.toNat - 1) = cfg.maxAttempts.toNat
    omega

/-- C4 witness: a 3-attempt config whose only predicate is timeout stops
after the first non-matching failure, and with no predicates the run is
exhausted after 3 attempts returning the last failure. -/
theorem C4_retry_attempts_witness :
    ((ExecuteWithRetry (fun _ => none) (some ⟨3, "", "", 2, ["timeout"]⟩)
        (fun _ => some "boom") (fun _ => 0)).outcome = some "boom" ∧
      (ExecuteWithRetry (fun _ => none) (some ⟨3, "", "", 2, ["timeout"]⟩)
        (fun _ => some "boom") (fun _ => 0)).calls = 1)
    ∧ ((ExecuteWithRetry (fun _ => none) (some ⟨3, "", "", 2, []⟩)
        (fun _ => some "boom") (fun _ => 0)).outcome = some "boom" ∧
      (ExecuteWithRetry (fun _ => none) (some ⟨3, "", "", 2, []⟩)
        (fun _ => some "boom") (fun _ => 0)).calls = (3 : Int).toNat) :=
  ⟨C4_retry_attempts.2.2.2.1 (fun _ => none) ⟨3, "", "", 2, ["timeout"]⟩
      (fun _ => some "boom") (fun _ => 0) 1 "boom" (le_refl 1) (by decide)
      (fun i h1 h2 => absurd h2 (by omega)) rfl (by decide),
    C4_retry_attempts.2.2.2.2 (fun _ => none) ⟨3, "", "", 2, []⟩
      (fun _ => some "boom") (fun _ => 0) "boom" (by decide)
      (fun i h1 h2 => ⟨"boom", rfl, by decide⟩) rfl⟩

/-- C5 claim: the value of calculateDelay is the capped exponential
min(initial·multiplier^(k-1), max) with a jitter factor within plus or
minus 10 percent applied (then truncated to whole nanoseconds), clamped
below by the initial delay; and inside ExecuteWithRetry the sleep
recorded after a retryable failing non-final attempt k is exactly
calculateDelay (k-1) at that attempt's jitter sample. -/
theorem C5_backoff_delay :
    (∀ (a : ℕ) (initD maxD : Int) (mult j : ℚ), 0 ≤ j → j ≤ 1 →
      ∃ ε : ℚ, |ε| ≤ 1/10 ∧
        calculateDelay a initD maxD mult j
          = max initD (ratTrunc (min ((initD : ℚ) * mult ^ a) (maxD : ℚ) * (1 + ε))) ∧
        initD ≤ calculateDelay a initD maxD mult j)
    ∧ (∀ (parse : String → Option Int) (cfg : RetryConfig) (fn : ℕ → Option String)
        (js : ℕ → ℚ) (k : ℕ),
      1 ≤ k → k < cfg.maxAttempts.toNat →
      (∀ i, 1 ≤ i → i ≤ k → ∃ e, fn i = some e ∧ shouldRetry e cfg.retryOn = true) →
      (ExecuteWithRetry parse (some cfg) fn js).delays.get? (k - 1) =
        some (calculateDelay (k - 1)
          (parseDuration parse cfg.initialDelay (1 * nsPerSecond))
          (parseDuration parse cfg.maxDelay (60 * nsPerSecond))
          (if cfg.multiplier ≤ 0 then 2 else cfg.multiplier) (js k))) := by
  constructor
  · intro a initD maxD mult j hj0 hj1
    have hres : calculateDelay a initD maxD mult j
        = max initD (ratTrunc (min ((initD : ℚ) * mult ^ a) (maxD : ℚ) * (1 + (j * 2 - 1) / 10))) := by
      simp only [calculateDelay]
      have hmin : (if (initD : ℚ) * mult ^ a > (maxD : ℚ) then (maxD : ℚ)
          else (initD : ℚ) * mult ^ a) = min ((initD : ℚ) * mult ^ a) (maxD : ℚ) := by
        rcases le_or_lt ((initD : ℚ) * mult ^ a) (maxD : ℚ) with h | h
        · rw [if_neg (not_lt.mpr h), min_eq_left h]
        · rw [if_pos h, min_eq_right (le_of_lt h)]
      rw [hmin]
      have harith : min ((initD : ℚ) * mult ^ a) (maxD : ℚ)
            + min ((initD : ℚ) * mult ^ a) (maxD : ℚ) * (1 / 10) * (j * 2 - 1)
          = min ((initD : ℚ) * mult ^ a) (maxD : ℚ) * (1 + (j * 2 - 1) / 10) := by
        ring
      rw [harith]
      rcases lt_or_ge (ratTrunc (min ((initD : ℚ) * mult ^ a) (maxD : ℚ)
          * (1 + (j * 2 - 1) / 10))) initD with h | h
      · rw [if_pos h, max_eq_left (le_of_lt h)]
      · rw [if_neg (not_lt.mpr h), max_eq_right h]
    refine ⟨(j * 2 - 1) / 10, ?_, hres, ?_⟩
    · rw [abs_le]
      constructor <;> linarith
    · rw [hres]
      exact le_max_left _ _
  · intro parse cfg fn js k hk1 hklt hall
    have hma : 1 ≤ cfg.maxAttempts := by omega
    rw [ExecuteWithRetry_pos parse cfg fn js hma]
    have hget := retryAux_delays_get fn js cfg.retryOn cfg.maxAttempts.toNat
      (parseDuration parse cfg.initialDelay (1 * nsPerSecond))
      (parseDuration parse cfg.maxDelay (60 * nsPerSecond))
      (if cfg.multiplier ≤ 0 then 2 else cfg.multiplier)
      (k - 1) 1 cfg.maxAttempts.toNat
      (fun i h1 h2 => hall i h1 (by omega)) (by omega) (by omega)
    have hk : 1 + (k - 1) = k := by omega
    rw [hk] at hget
    exact hget

/-- C5 witness: for attempt 1 of a 3-attempt run with multiplier 2 and
jitter sample one half, the recorded sleep is calculateDelay 0 at the
defaulted bounds, and the closed-form characterisation holds there. -/
theorem C5_backoff_delay_witness :
    (∃ ε : ℚ, |ε| ≤ 1/10 ∧
      calculateDelay 1 nsPerSecond (60 * nsPerSecond) 2 (1/2)
        = max nsPerSecond (ratTrunc (min ((nsPerSecond : ℚ) * 2 ^ 1) ((60 * nsPerSecond : Int) : ℚ) * (1 + ε))) ∧
      nsPerSecond ≤ calculateDelay 1 nsPerSecond (60 * nsPerSecond) 2 (1/2))
    ∧ (ExecuteWithRetry (fun _ => none) (some ⟨3, "", "", 2, ["error"]⟩)
        (fun _ => some "x") (fun _ => 1/2)).delays.get? 0 =
      some (calculateDelay 0
        (parseDuration (fun _ => none) "" (1 * nsPerSecond))
        (parseDuration (fun _ => none) "" (60 * nsPerSecond))
        (if (2 : ℚ) ≤ 0 then 2 else 2) ((fun _ => (1 : ℚ)/2) 1)) :=
  ⟨C5_backoff_delay.1 1 nsPerSecond (60 * nsPerSecond) 2 (1/2) (by norm_num) (by norm_num),
    C5_backoff_delay.2 (fun _ => none) ⟨3, "", "", 2, ["error"]⟩
      (fun _ => some "x") (fun _ => 1/2) 1 (le_refl 1) (by decide)
      (fun i h1 h2 => ⟨"x", rfl, by decide⟩)⟩

/-- C10 claim: a non-empty initial_delay or max_delay string that fails
duration parsing is silently replaced by the default (1s and 60s), the
retry run proceeds with exactly those defaults, and the final outcome is
always an outcome of the wrapped action, never a synthesised parse
error. -/
theorem C10_duration_default :
    (∀ (parse : String → Option Int) (s : String) (d : Int),
      s ≠ "" → parse s = none → parseDuration parse s d = d)
    ∧ (∀ (parse : String → Option Int) (cfg : RetryConfig) (fn : ℕ → Option String) (js : ℕ → ℚ),
      1 ≤ cfg.maxAttempts →
      parse cfg.initialDelay = none → parse cfg.maxDelay = none →
      ExecuteWithRetry parse (some cfg) fn js =
        retryAux fn js cfg.retryOn cfg.maxAttempts.toNat (1 * nsPerSecond) (60 * nsPerSecond)
          (if cfg.multiplier ≤ 0 then 2 else cfg.multiplier) 1 cfg.maxAttempts.toNat)
    ∧ (∀ (parse : String → Option Int) (cfgOpt : Option RetryConfig) (fn : ℕ → Option String)
        (js : ℕ → ℚ),
      (ExecuteWithRetry parse cfgOpt fn js).outcome = none ∨
      ∃ i, 1 ≤ i ∧ (ExecuteWithRetry parse cfgOpt fn js).outcome = fn i) := by
  refine ⟨fun parse s d _ h => parseDuration_of_parse_none parse s d h, ?_, ?_⟩
  · intro parse cfg fn js hma hpi hpm
    rw [ExecuteWithRetry_pos parse cfg fn js hma,
      parseDuration_of_parse_none parse cfg.initialDelay _ hpi,
      parseDuration_of_parse_none parse cfg.maxDelay _ hpm]
  · intro parse cfgOpt fn js
    match cfgOpt with
    | none => exact Or.inr ⟨1, le_refl 1, rfl⟩
    | some cfg =>
      by_cases h0 : cfg.maxAttempts ≤ 0
      · right
        refine ⟨1, le_refl 1, ?_⟩
        simp [ExecuteWithRetry, if_pos h0]
      · rw [ExecuteWithRetry_pos parse cfg fn js (by omega)]
        rcases retryAux_outcome fn js cfg.retryOn cfg.maxAttempts.toNat
          (parseDuration parse cfg.initialDelay (1 * nsPerSecond))
          (parseDuration parse cfg.maxDelay (60 * nsPerSecond))
          (if cfg.multiplier ≤ 0 then 2 else cfg.multiplier)
          cfg.maxAttempts.toNat 1 with h | ⟨i, hi, heq⟩
        · exact Or.inl h
        · exact Or.inr ⟨i, hi, heq⟩

/-- C10 witness: unparseable zzz and yyy strings fall back to 1s and 60s
and the two-attempt run proceeds, returning the action's own failure. -/
theorem C10_duration_default_witness :
    (parseDuration (fun _ => none) "zzz" nsPerSecond = nsPerSecond)
    ∧ ExecuteWithRetry (fun _ => none) (some ⟨2, "zzz", "yyy", 2, []⟩)
        (fun _ => some "x") (fun _ => 0) =
      retryAux (fun _ => some "x") (fun _ => 0) [] (2 : Int).toNat (1 * nsPerSecond)
        (60 * nsPerSecond) (if (2 : ℚ) ≤ 0 then 2 else 2) 1 (2 : Int).toNat :=
  ⟨C10_duration_default.1 (fun _ => none) "zzz" nsPerSecond (by decide) rfl,
    C10_duration_default.2.1 (fun _ => none) ⟨2, "zzz", "yyy", 2, []⟩
      (fun _ => some "x") (fun _ => 0) (by decide) rfl rfl⟩

/-! ## Lemmas about the firing pipelines -/

/-- Every event of the cron action loop is a dispatch, a custom skip or
an unknown-type mark; the loop itself touches neither metrics nor the
history store. -/
theorem runCron_events_plain (exec : ℕ → Action → Option String) :
    ∀ (acts : List Action) (i : ℕ) (st : String) (er : Option String),
      ∀ ev ∈ (runCronActions exec acts i st er).2.2,
        (∃ n t, ev = PEvent.dispatch n t) ∨ (∃ n, ev = PEvent.skipCustom n) ∨
          (∃ n, ev = PEvent.unknownAction n) := by
  intro acts
  induction acts with
  | nil => intro i st er ev hev; simp [runCronActions] at hev
  | cons a rest ih =>
    intro i st er ev hev
    cases hty : a.typ with
    | bash =>
      simp only [runCronActions, hty] at hev
      rcases List.mem_cons.mp hev with rfl | hmem
      · exact Or.inl ⟨i, .bash, rfl⟩
      · exact ih (i + 1) _ _ ev hmem
    | http =>
      simp only [runCronActions, hty] at hev
      rcases List.mem_cons.mp hev with rfl | hmem
      · exact Or.inl ⟨i, .http, rfl⟩
      · exact ih (i + 1) _ _ ev hmem
    | custom =>
      simp only [runCronActions, hty] at hev
      rcases List.mem_cons.mp hev with rfl | hmem
      · exact Or.inr (Or.inl ⟨i, rfl⟩)
      · exact ih (i + 1) _ _ ev hmem
    | otherAction s =>
      simp only [runCronActions, hty] at hev
      rcases List.mem_cons.mp hev with rfl | hmem
      · exact Or.inr (Or.inr ⟨i, rfl⟩)
      · exact ih (i + 1) _ _ ev hmem

/-- The cron action loop opens no history record. -/
theorem runCron_countOpens (exec : ℕ → Action → Option String)
    (acts : List Action) (i : ℕ) (st : String) (er : Option String) :
    countOpens (runCronActions exec acts i st er).2.2 = 0 := by
  rw [countOpens, List.countP_eq_zero]
  intro ev hev
  rcases runCron_events_plain exec acts i st er ev hev with ⟨n, t, rfl⟩ | ⟨n, rfl⟩ | ⟨n, rfl⟩ <;>
    simp

/-- The cron action loop completes no history record. -/
theorem runCron_countCompletes (exec : ℕ → Action → Option String)
    (acts : List Action) (i : ℕ) (st : String) (er : Option String) :
    countCompletes (runCronActions exec acts i st er).2.2 = 0 := by
  rw [countCompletes, List.countP_eq_zero]
  intro ev hev
  rcases runCron_events_plain exec acts i st er ev hev with ⟨n, t, rfl⟩ | ⟨n, rfl⟩ | ⟨n, rfl⟩ <;>
    simp

/-- The aggregate status ends as it started or as failed. -/
theorem runCron_status (exec : ℕ → Action → Option String) :
    ∀ (acts : List Action) (i : ℕ) (st : String) (er : Option String),
      (runCronActions exec acts i st er).1 = st ∨
        (runCronActions exec acts i st er).1 = "failed" := by
  intro acts
  induction acts with
  | nil => intro i st er; left; rfl
  | cons a rest ih =>
    intro i st er
    cases hty : a.typ with
    | bash =>
      cases hex : exec i a with
      | some e =>
        simp only [runCronActions, hty, hex]
        rcases ih (i + 1) "failed" (some e) with h | h
        · exact Or.inr h
        · exact Or.inr h
      | none =>
        simp only [runCronActions, hty, hex]
        exact ih (i + 1) st er
    | http =>
      cases hex : exec i a with
      | some e =>
        simp only [runCronActions, hty, hex]
        rcases ih (i + 1) "failed" (some e) with h | h
        · exact Or.inr h
        · exact Or.inr h
      | none =>
        simp only [runCronActions, hty, hex]
        exact ih (i + 1) st er
    | custom =>
      simp only [runCronActions, hty]
      exact ih (i + 1) st er
    | otherAction s =>
      simp only [runCronActions, hty]
      rcases ih (i + 1) "failed" (some ("unsupported action type: " ++ s)) with h | h
      · exact Or.inr h
      · exact Or.inr h

/-- Every event of the filewatch action loop is a dispatch or a skip; it
never touches metrics or history. -/
theorem runFilewatch_events_plain (exec : ℕ → Action → Option String) :
    ∀ (acts : List Action) (i : ℕ),
      ∀ ev ∈ runFilewatchActions exec acts i,
        (∃ n t, ev = PEvent.dispatch n t) ∨ (∃ n, ev = PEvent.skipHttpTodo n) ∨
          (∃ n, ev = PEvent.skipCustom n) ∨ (∃ n, ev = PEvent.unknownAction n) := by
  intro acts
  induction acts with
  | nil => intro i ev hev; simp [runFilewatchActions] at hev
  | cons a rest ih =>
    intro i ev hev
    cases hty : a.typ with
    | bash =>
      simp only [runFilewatchActions, hty] at hev
      rcases List.mem_cons.mp hev with rfl | hmem
      · exact Or.inl ⟨i, .bash, rfl⟩
      · exact ih (i + 1) ev hmem
    | http =>
      simp only [runFilewatchActions, hty] at hev
      rcases List.mem_cons.mp hev with rfl | hmem
      · exact Or.inr (Or.inl ⟨i, rfl⟩)
      · exact ih (i + 1) ev hmem
    | custom =>
      simp only [runFilewatchActions, hty] at hev
      rcases List.mem_cons.mp hev with rfl | hmem
      · exact Or.inr (Or.inr (Or.inl ⟨i, rfl⟩))
      · exact ih (i + 1) ev hmem
    | otherAction s =>
      simp only [runFilewatchActions, hty] at hev
      rcases List.mem_cons.mp hev with rfl | hmem
      · exact Or.inr (Or.inr (Or.inr ⟨i, rfl⟩))
      · exact ih (i + 1) ev hmem

/-- C2 as amended: a cron firing whose history insert succeeded opens
exactly one record and writes exactly one completion, carrying a
terminal status together with the elapsed time and error text; a
filewatch firing opens no record and completes none. -/
theorem C2_history_records :
    (∀ (wf : Workflow) (id durationNs : Int) (exec : ℕ → Action → Option String), 0 < id →
      countOpens (cronFire wf (.ok id) durationNs exec) = 1 ∧
      countCompletes (cronFire wf (.ok id) durationNs exec) = 1 ∧
      ∃ st er, PEvent.histComplete id st durationNs er ∈ cronFire wf (.ok id) durationNs exec ∧
        (st = "success" ∨ st = "failed"))
    ∧ (∀ (wf : Workflow) (exec : ℕ → Action → Option String),
      countOpens (filewatchFire wf exec) = 0 ∧ countCompletes (filewatchFire wf exec) = 0) := by
  constructor
  · intro wf id dur exec hid
    refine ⟨?_, ?_, ?_⟩
    · have hmid := runCron_countOpens exec wf.actions 0 "success" none
      rw [countOpens] at hmid ⊢
      simp only [cronFire, if_pos hid, List.countP_append, List.countP_cons, List.countP_nil]
      simp [hmid]
    · have hmid := runCron_countCompletes exec wf.actions 0 "success" none
      rw [countCompletes] at hmid ⊢
      simp only [cronFire, if_pos hid, List.countP_append, List.countP_cons, List.countP_nil]
      simp [hmid]
    · refine ⟨(runCronActions exec wf.actions 0 "success" none).1,
        (runCronActions exec wf.actions 0 "success" none).2.1, ?_, ?_⟩
      · simp [cronFire, if_pos hid]
      · exact runCron_status exec wf.actions 0 "success" none
  · intro wf exec
    constructor
    · rw [countOpens, List.countP_eq_zero]
      intro ev hev
      rcases runFilewatch_events_plain exec wf.actions 0 ev hev with
        ⟨n, t, rfl⟩ | ⟨n, rfl⟩ | ⟨n, rfl⟩ | ⟨n, rfl⟩ <;> simp
    · rw [countCompletes, List.countP_eq_zero]
      intro ev hev
      rcases runFilewatch_events_plain exec wf.actions 0 ev hev with
        ⟨n, t, rfl⟩ | ⟨n, rfl⟩ | ⟨n, rfl⟩ | ⟨n, rfl⟩ <;> simp

/-- C2 witness: a concrete cron firing with insert id 1 opens one record
and completes it once with a terminal status. -/
theorem C2_history_records_witness :
    countOpens (cronFire cronWf2 (.ok 1) 5 execNone) = 1 ∧
    countCompletes (cronFire cronWf2 (.ok 1) 5 execNone) = 1 ∧
    ∃ st er, PEvent.histComplete 1 st 5 er ∈ cronFire cronWf2 (.ok 1) 5 execNone ∧
      (st = "success" ∨ st = "failed") :=
  C2_history_records.1 cronWf2 1 5 execNone (by decide)

/-- C2 counterexample to the claim as stated: a filewatch firing that
does execute the action chain opens zero ExecutionRecords, not exactly
one, and writes zero completions. -/
theorem C2_counterexample :
    filewatchFire wfFW execNone ≠ [] ∧
    countOpens (filewatchFire wfFW execNone) = 0 ∧
    countCompletes (filewatchFire wfFW execNone) = 0 := by
  refine ⟨by decide, rfl, rfl⟩

/-- Index recorded by a visit of the action loop. -/
def visitIdx : PEvent → Option ℕ
  | .dispatch i _ => some i
  | .skipCustom i => some i
  | .skipHttpTodo i => some i
  | .unknownAction i => some i
  | _ => none

/-- The failing error messages of a cron firing, in dispatch order (the
unsupported-type message for unknown action types). -/
def cronFailures (exec : ℕ → Action → Option String) : List Action → ℕ → List String
  | [], _ => []
  | a :: rest, i =>
    match a.typ with
    | .bash =>
      (match exec i a with
       | some e => [e]
       | none => []) ++ cronFailures exec rest (i + 1)
    | .http =>
      (match exec i a with
       | some e => [e]
       | none => []) ++ cronFailures exec rest (i + 1)
    | .custom => cronFailures exec rest (i + 1)
    | .otherAction s => ("unsupported action type: " ++ s) :: cronFailures exec rest (i + 1)

/-- Prepending an element shifts the last-or-default one slot. -/
theorem consGetLastOr {α : Type} (e : α) (L : List α) (o : Option α) :
    ((e :: L).getLast?).or o = (L.getLast?).or (some e) := by
  cases L with
  | nil => simp
  | cons x xs =>
    rw [List.getLast?_cons_cons]
    cases h : (x :: xs).getLast? with
    | none =>
      rw [List.getLast?_eq_none_iff] at h
      exact absurd h (by simp)
    | some v =>
      rfl

/-- C3 as amended: the cron pipeline visits every action in declared
order with no short-circuit; the aggregate status is failed exactly when
some failure occurred; and the recorded error is the last failing
action's message (each failure overwrites the previous one), not the
first. -/
theorem C3_pipeline (exec : ℕ → Action → Option String) :
    ∀ (acts : List Action) (i : ℕ) (st : String) (er : Option String),
      (runCronActions exec acts i st er).2.2.filterMap visitIdx = List.range' i acts.length
      ∧ (runCronActions exec acts i st er).1
          = (if cronFailures exec acts i = [] then st else "failed")
      ∧ (runCronActions exec acts i st er).2.1
          = ((cronFailures exec acts i).getLast?).or er := by
  intro acts
  induction acts with
  | nil =>
    intro i st er
    refine ⟨rfl, ?_, rfl⟩
    simp [runCronActions, cronFailures]
  | cons a rest ih =>
    intro i st er
    cases hty : a.typ with
    | bash =>
      cases hex : exec i a with
      | some e =>
        obtain ⟨h1, h2, h3⟩ := ih (i + 1) "failed" (some e)
        refine ⟨?_, ?_, ?_⟩
        · simp only [runCronActions, hty, hex, List.length_cons, List.range'_succ,
            List.filterMap_cons, visitIdx]
          rw [h1]
        · simp only [runCronActions, hty, hex, cronFailures]
          rw [h2]
          simp
        · simp only [runCronActions, hty, hex, cronFailures, List.singleton_append]
          rw [h3, consGetLastOr]
      | none =>
        obtain ⟨h1, h2, h3⟩ := ih (i + 1) st er
        refine ⟨?_, ?_, ?_⟩
        · simp only [runCronActions, hty, hex, List.length_cons, List.range'_succ,
            List.filterMap_cons, visitIdx]
          rw [h1]
        · simp only [runCronActions, hty, hex, cronFailures, List.nil_append]
          exact h2
        · simp only [runCronActions, hty, hex, cronFailures, List.nil_append]
          exact h3
    | http =>
      cases hex : exec i a with
      | some e =>
        obtain ⟨h1, h2, h3⟩ := ih (i + 1) "failed" (some e)
        refine ⟨?_, ?_, ?_⟩
        · simp only [runCronActions, hty, hex, List.length_cons, List.range'_succ,
            List.filterMap_cons, visitIdx]
          rw [h1]
        · simp only [runCronActions, hty, hex, cronFailures]
          rw [h2]
          simp
        · simp only [runCronActions, hty, hex, cronFailures, List.singleton_append]
          rw [h3, consGetLastOr]
      | none =>
        obtain ⟨h1, h2, h3⟩ := ih (i + 1) st er
        refine ⟨?_, ?_, ?_⟩
        · simp only [runCronActions, hty, hex, List.length_cons, List.range'_succ,
            List.filterMap_cons, visitIdx]
          rw [h1]
        · simp only [runCronActions, hty, hex, cronFailures, List.nil_append]
          exact h2
        · simp only [runCronActions, hty, hex, cronFailures, List.nil_append]
          exact h3
    | custom =>
      obtain ⟨h1, h2, h3⟩ := ih (i + 1) st er
      refine ⟨?_, ?_, ?_⟩
      · simp only [runCronActions, hty, List.length_cons, List.range'_succ,
          List.filterMap_cons, visitIdx]
        rw [h1]
      · simp only [runCronActions, hty, cronFailures]
        exact h2
      · simp only [runCronActions, hty, cronFailures]
        exact h3
    | otherAction s =>
      obtain ⟨h1, h2, h3⟩ := ih (i + 1) "failed" (some ("unsupported action type: " ++ s))
      refine ⟨?_, ?_, ?_⟩
      · simp only [runCronActions, hty, List.length_cons, List.range'_succ,
          List.filterMap_cons, visitIdx]
        rw [h1]
      · simp only [runCronActions, hty, cronFailures]
        rw [h2]
        simp
      · simp only [runCronActions, hty, cronFailures]
        rw [h3, consGetLastOr]

/-- C3 counterexample to the claim as stated: with two failing actions
whose messages are e1 then e2, the first failing action's error is e1
but the pipeline records e2 -- the last failure, not the first. -/
theorem C3_counterexample :
    cronFailures exec2 cronWf2.actions 0 = ["e1", "e2"]
    ∧ (runCronActions exec2 cronWf2.actions 0 "success" none).1 = "failed"
    ∧ (runCronActions exec2 cronWf2.actions 0 "success" none).2.1 = some "e2"
    ∧ (runCronActions exec2 cronWf2.actions 0 "success" none).2.1 ≠ some "e1" := by
  refine ⟨by decide, by decide, by decide, by decide⟩

/-! ## Lemmas about workflow validation -/

/-- The per-variant required fields of one action (its own tag's
obligations, nothing about foreign fields). -/
def actionBaseOK (a : Action) : Prop :=
  a.name ≠ "" ∧
  ((a.typ = ActionType.bash ∧ a.command ≠ "") ∨
   (a.typ = ActionType.http ∧ a.url ≠ "" ∧ a.method ≠ "") ∨
   (a.typ = ActionType.custom ∧ a.functionName ≠ ""))

instance : DecidablePred actionBaseOK := fun a => by
  unfold actionBaseOK; infer_instance

/-- Shell or custom fields on an action (the combination the validator
hard-rejects on HTTP actions). -/
def httpShellFields (a : Action) : Prop :=
  a.command ≠ "" ∨ a.functionName ≠ "" ∨ a.arguments.isSome = true

instance : DecidablePred httpShellFields := fun a => by
  unfold httpShellFields; infer_instance

/-- HTTP fields on a bash action (warned about, never rejected). -/
def bashForeign (a : Action) : Prop :=
  a.url ≠ "" ∨ a.method ≠ "" ∨ 0 < a.headers.length ∨ a.body ≠ ""

instance : DecidablePred bashForeign := fun a => by
  unfold bashForeign; infer_instance

/-- Bash or HTTP fields on a custom action (warned about, never
rejected). -/
def customForeign (a : Action) : Prop :=
  a.command ≠ "" ∨ a.url ≠ "" ∨ a.method ≠ "" ∨ 0 < a.headers.length ∨ a.body ≠ ""

instance : DecidablePred customForeign := fun a => by
  unfold customForeign; infer_instance

/-- The action loop accepts a list of per-variant well-formed actions
exactly when no HTTP action among them carries shell or custom fields. -/
theorem validateActions_ok_iff :
    ∀ (acts : List Action) (i : ℕ), (∀ a ∈ acts, actionBaseOK a) →
      ((∃ ws, validateActions i acts = .ok ws) ↔
        ∀ a ∈ acts, a.typ = ActionType.http → ¬ httpShellFields a) := by
  intro acts
  induction acts with
  | nil =>
    intro i _
    constructor
    · intro _ a ha
      simp at ha
    · intro _
      exact ⟨[], rfl⟩
  | cons a rest ih =>
    intro i hbase
    obtain ⟨hname, hvar⟩ := hbase a (List.mem_cons_self a rest)
    have hrest : ∀ x ∈ rest, actionBaseOK x := fun x hx => hbase x (List.mem_cons_of_mem a hx)
    rcases hvar with ⟨hty, hcmd⟩ | ⟨hty, hurl, hmethod⟩ | ⟨hty, hfn⟩
    · constructor
      · rintro ⟨ws, hws⟩ x hx hxty
        rcases List.mem_cons.mp hx with rfl | hmem
        · rw [hty] at hxty
          simp at hxty
        · refine (ih (i + 1) hrest).mp ?_ x hmem hxty
          simp only [validateActions, hty, if_neg hname, if_neg hcmd] at hws
          cases hm : validateActions (i + 1) rest with
          | error e => rw [hm] at hws; simp at hws
          | ok more => exact ⟨more, rfl⟩
      · intro hforeign
        obtain ⟨ws2, hws2⟩ := (ih (i + 1) hrest).mpr
          (fun x hx hxty => hforeign x (List.mem_cons_of_mem a hx) hxty)
        exact ⟨(if a.url ≠ "" ∨ a.method ≠ "" ∨ 0 < a.headers.length ∨ a.body ≠ "" then
            ["Bash action " ++ a.name ++ " has unexpected HTTP fields; they will be ignored."]
          else []) ++ ws2, by
          simp only [validateActions, hty, if_neg hname, if_neg hcmd, hws2]⟩
    · by_cases hdirty : a.command ≠ "" ∨ a.functionName ≠ "" ∨ a.arguments.isSome
      · constructor
        · rintro ⟨ws, hws⟩
          simp only [validateActions, hty, if_neg hname, if_neg hurl, if_neg hmethod,
            if_pos hdirty] at hws
          simp at hws
        · intro hforeign
          exact absurd hdirty (hforeign a (List.mem_cons_self a rest) hty)
      · have hstep : validateActions i (a :: rest) = validateActions (i + 1) rest := by
          simp only [validateActions, hty, if_neg hname, if_neg hurl, if_neg hmethod,
            if_neg hdirty]
        rw [hstep]
        constructor
        · intro hok x hx hxty
          rcases List.mem_cons.mp hx with rfl | hmem
          · exact hdirty
          · exact (ih (i + 1) hrest).mp hok x hmem hxty
        · intro hforeign
          exact (ih (i + 1) hrest).mpr
            (fun x hx hxty => hforeign x (List.mem_cons_of_mem a hx) hxty)
    · constructor
      · rintro ⟨ws, hws⟩ x hx hxty
        rcases List.mem_cons.mp hx with rfl | hmem
        · rw [hty] at hxty
          simp at hxty
        · refine (ih (i + 1) hrest).mp ?_ x hmem hxty
          simp only [validateActions, hty, if_neg hname, if_neg hfn] at hws
          cases hm : validateActions (i + 1) rest with
          | error e => rw [hm] at hws; simp at hws
          | ok more => exact ⟨more, rfl⟩
      · intro hforeign
        obtain ⟨ws2, hws2⟩ := (ih (i + 1) hrest).mpr
          (fun x hx hxty => hforeign x (List.mem_cons_of_mem a hx) hxty)
        exact ⟨(if a.command ≠ "" ∨ a.url ≠ "" ∨ a.method ≠ "" ∨ 0 < a.headers.length ∨ a.body ≠ "" then
            ["Custom action " ++ a.name ++ " has unexpected Bash or HTTP fields; they will be ignored."]
          else []) ++ ws2, by
          simp only [validateActions, hty, if_neg hname, if_neg hfn, hws2]⟩

/-- When some bash or custom action carries foreign fields (and nothing
triggers the HTTP hard error), the action loop accepts with a non-empty
warning list. -/
theorem validateActions_warns :
    ∀ (acts : List Action) (i : ℕ), (∀ a ∈ acts, actionBaseOK a) →
      (∀ a ∈ acts, a.typ = ActionType.http → ¬ httpShellFields a) →
      (∃ a ∈ acts, (a.typ = ActionType.bash ∧ bashForeign a) ∨
        (a.typ = ActionType.custom ∧ customForeign a)) →
      ∃ ws, validateActions i acts = .ok ws ∧ ws ≠ [] := by
  intro acts
  induction acts with
  | nil =>
    intro i _ _ hex
    simp at hex
  | cons a rest ih =>
    intro i hbase hclean hex
    obtain ⟨hname, hvar⟩ := hbase a (List.mem_cons_self a rest)
    have hrest : ∀ x ∈ rest, actionBaseOK x := fun x hx => hbase x (List.mem_cons_of_mem a hx)
    have hcleanrest : ∀ x ∈ rest, x.typ = ActionType.http → ¬ httpShellFields x :=
      fun x hx => hclean x (List.mem_cons_of_mem a hx)
    obtain ⟨x, hx, hxcase⟩ := hex
    rcases List.mem_cons.mp hx with rfl | hmem
    · rcases hxcase with ⟨hxty, hxfor⟩ | ⟨hxty, hxfor⟩
      · rcases hvar with ⟨hty, hcmd⟩ | ⟨hty, _⟩ | ⟨hty, _⟩
        all_goals try (rw [hty] at hxty; simp at hxty)
        obtain ⟨ws2, hws2⟩ := (validateActions_ok_iff rest (i + 1) hrest).mpr hcleanrest
        refine ⟨(if x.url ≠ "" ∨ x.method ≠ "" ∨ 0 < x.headers.length ∨ x.body ≠ "" then
            ["Bash action " ++ x.name ++ " has unexpected HTTP fields; they will be ignored."]
          else []) ++ ws2, ?_, ?_⟩
        · simp only [validateActions, hty, if_neg hname, if_neg hcmd, hws2]
        · rw [if_pos (show x.url ≠ "" ∨ x.method ≠ "" ∨ 0 < x.headers.length ∨ x.body ≠ "" from hxfor)]
          simp
      · rcases hvar with ⟨hty, _⟩ | ⟨hty, _⟩ | ⟨hty, hfn⟩
        all_goals try (rw [hty] at hxty; simp at hxty)
        obtain ⟨ws2, hws2⟩ := (validateActions_ok_iff rest (i + 1) hrest).mpr hcleanrest
        refine ⟨(if x.command ≠ "" ∨ x.url ≠ "" ∨ x.method ≠ "" ∨ 0 < x.headers.length ∨ x.body ≠ "" then
            ["Custom action " ++ x.name ++ " has unexpected Bash or HTTP fields; they will be ignored."]
          else []) ++ ws2, ?_, ?_⟩
        · simp only [validateActions, hty, if_neg hname, if_neg hfn, hws2]
        · rw [if_pos (show x.command ≠ "" ∨ x.url ≠ "" ∨ x.method ≠ "" ∨ 0 < x.headers.length ∨ x.body ≠ "" from hxfor)]
          simp
    · obtain ⟨ws2, hws2, hne2⟩ := ih (i + 1) hrest hcleanrest ⟨x, hmem, hxcase⟩
      rcases hvar with ⟨hty, hcmd⟩ | ⟨hty, hurl, hmethod⟩ | ⟨hty, hfn⟩
      · refine ⟨(if a.url ≠ "" ∨ a.method ≠ "" ∨ 0 < a.headers.length ∨ a.body ≠ "" then
            ["Bash action " ++ a.name ++ " has unexpected HTTP fields; they will be ignored."]
          else []) ++ ws2, ?_, ?_⟩
        · simp only [validateActions, hty, if_neg hname, if_neg hcmd, hws2]
        · intro hcon
          rcases List.append_eq_nil.mp hcon with ⟨_, h2⟩
          exact hne2 h2
      · have hdirty : ¬ (a.command ≠ "" ∨ a.functionName ≠ "" ∨ a.arguments.isSome) :=
          hclean a (List.mem_cons_self a rest) hty
        refine ⟨ws2, ?_, hne2⟩
        simp only [validateActions, hty, if_neg hname, if_neg hurl, if_neg hmethod,
          if_neg hdirty, hws2]
      · refine ⟨(if a.command ≠ "" ∨ a.url ≠ "" ∨ a.method ≠ "" ∨ 0 < a.headers.length ∨ a.body ≠ "" then
            ["Custom action " ++ a.name ++ " has unexpected Bash or HTTP fields; they will be ignored."]
          else []) ++ ws2, ?_, ?_⟩
        · simp only [validateActions, hty, if_neg hname, if_neg hfn, hws2]
        · intro hcon
          rcases List.append_eq_nil.mp hcon with ⟨_, h2⟩
          exact hne2 h2

/-- Boolean acceptance of the trigger switch. -/
def isOkB : Except String (List String) → Bool
  | .ok _ => true
  | .error _ => false

/-- A workflow whose own-variant obligations all hold: non-empty name,
at least one action, an accepted trigger, and each action carrying its
tag's required fields. -/
def wfBaseOK (wf : Workflow) : Prop :=
  wf.name ≠ "" ∧ wf.actions.length ≠ 0 ∧ isOkB (validateTrigger wf) = true ∧
  ∀ a ∈ wf.actions, actionBaseOK a

instance (wf : Workflow) : Decidable (wfBaseOK wf) := by
  unfold wfBaseOK; infer_instance

/-- C7 claim: under the own-variant obligations, the validator accepts a
workflow exactly when no HTTP action carries shell or custom fields
(command, function_name or arguments) -- foreign fields elsewhere never
reject -- and a bash or custom action with foreign fields still passes,
producing a non-empty warning list. -/
theorem C7_foreign_fields :
    (∀ wf : Workflow, wfBaseOK wf →
      ((∃ ws, validateWorkflow wf = .ok ws) ↔
        ∀ a ∈ wf.actions, a.typ = ActionType.http → ¬ httpShellFields a))
    ∧ (∀ wf : Workflow, wfBaseOK wf →
      (∀ a ∈ wf.actions, a.typ = ActionType.http → ¬ httpShellFields a) →
      (∃ a ∈ wf.actions, (a.typ = ActionType.bash ∧ bashForeign a) ∨
        (a.typ = ActionType.custom ∧ customForeign a)) →
      ∃ ws, validateWorkflow wf = .ok ws ∧ ws ≠ []) := by
  have hsetup : ∀ wf : Workflow, wfBaseOK wf →
      ∃ tws, validateTrigger wf = .ok tws ∧
        validateWorkflow wf =
          (match validateActions 0 wf.actions with
           | .error e => .error e
           | .ok aws => .ok (tws ++ aws)) := by
    intro wf hb
    obtain ⟨hname, hlen, htrig, _⟩ := hb
    cases ht : validateTrigger wf with
    | error e => rw [ht] at htrig; simp [isOkB] at htrig
    | ok tws =>
      refine ⟨tws, rfl, ?_⟩
      simp only [validateWorkflow, if_neg hname, if_neg hlen, ht]
  constructor
  · intro wf hbase
    obtain ⟨tws, htws, hvw⟩ := hsetup wf hbase
    obtain ⟨_, _, _, hacts⟩ := hbase
    rw [hvw]
    constructor
    · rintro ⟨ws, hws⟩
      refine (validateActions_ok_iff wf.actions 0 hacts).mp ?_
      cases hm : validateActions 0 wf.actions with
      | error e => rw [hm] at hws; simp at hws
      | ok aws => exact ⟨aws, rfl⟩
    · intro hclean
      obtain ⟨aws, haws⟩ := (validateActions_ok_iff wf.actions 0 hacts).mpr hclean
      exact ⟨tws ++ aws, by rw [haws]⟩
  · intro wf hbase hclean hex
    obtain ⟨tws, htws, hvw⟩ := hsetup wf hbase
    obtain ⟨_, _, _, hacts⟩ := hbase
    obtain ⟨aws, haws, hne⟩ := validateActions_warns wf.actions 0 hacts hclean hex
    refine ⟨tws ++ aws, ?_, ?_⟩
    · rw [hvw, haws]
    · intro hcon
      rcases List.append_eq_nil.mp hcon with ⟨_, h2⟩
      exact hne h2

/-- A cron workflow whose single bash action carries a foreign HTTP url
field. -/
def wf7 : Workflow :=
  ⟨"w7", "", ⟨.cron, "* * * * *", "", []⟩,
    [⟨.bash, "b", "echo hi", "https://foreign", "", [], "", "", none, "", "", none⟩]⟩

/-- C7 witness: wf7 is accepted despite the foreign url on its bash
action, with at least one warning emitted. -/
theorem C7_foreign_fields_witness :
    ∃ ws, validateWorkflow wf7 = .ok ws ∧ ws ≠ [] :=
  C7_foreign_fields.2 wf7 (by decide) (by decide)
    ⟨⟨.bash, "b", "echo hi", "https://foreign", "", [], "", "", none, "", "", none⟩,
      List.mem_cons_self _ _, Or.inl ⟨rfl, Or.inl (by decide)⟩⟩

end Autozap
